import Mathlib

/-!
Shallow embedding of the EQ2 spawn-tracker bot (`src/bot.py`).

Modelling conventions:
* Timestamps are rationals, measured in hours on one absolute axis, so that the
  gap `(b - a).total_seconds() / 3600.0` of the source becomes `b - a` here.
  Python's `sorted` on timestamps is modelled by `List.insertionSort (· ≤ ·)`
  (a stable sort, like CPython's).
* Python floats are modelled as exact rationals; `round(x, 2)` becomes
  `round2`, rounding half-to-even as CPython does.
* The Discord plumbing (message sending, persistence file, guild lookup) is
  outside the model; each command's effect on a mob record is captured from
  the point where its arguments have been tokenised and its mob key resolved.
-/

/-- Confidence levels produced by the window learner (`"LOW"/"MEDIUM"/"HIGH"`
strings in `bot.py`). -/
inductive Conf where
  | LOW
  | MEDIUM
  | HIGH
deriving DecidableEq, Repr

/-- One tracked mob record, mirroring the dict created in `tod` / `spawn` /
`track` / `setwindow` (`bot.py` lines 412-422 etc.). -/
structure Mob where
  display_name : String
  tracking : Bool
  min_respawn_hours : Option ℚ
  max_respawn_hours : Option ℚ
  last_death : Option ℚ
  last_spawn : Option ℚ
  tod_history : List ℚ
  learned_confidence : Conf
deriving DecidableEq, Repr

/-- The fresh record every creating command installs for an unknown key
(`tracking=True`, null window, null references, empty history, LOW). -/
def newMob (name : String) : Mob :=
  { display_name := name
    tracking := true
    min_respawn_hours := none
    max_respawn_hours := none
    last_death := none
    last_spawn := none
    tod_history := []
    learned_confidence := .LOW }

/-- Round half-to-even to an integer, as CPython's `round` does. -/
def roundHalfEven (x : ℚ) : ℤ :=
  let f := ⌊x⌋
  let frac := x - f
  if frac < 1/2 then f
  else if 1/2 < frac then f + 1
  else if f % 2 = 0 then f else f + 1

/-- Python's `round(x, 2)`: the nearest multiple of 1/100. (`mkRat` is used
instead of `/` so that the definition evaluates inside the kernel.) -/
def round2 (x : ℚ) : ℚ := mkRat (roundHalfEven (x * 100)) 100

/-- Python's `min` over a list; the `[]` case (where CPython raises) is given
a junk value and is never reached by the callers below. -/
def listMin : List ℚ → ℚ
  | [] => 0
  | x :: xs => xs.foldl min x

/-- Python's `max` over a list; junk value on `[]` as for `listMin`. -/
def listMax : List ℚ → ℚ
  | [] => 0
  | x :: xs => xs.foldl max x

/-- Lines 190-196 of `bot.py`: sort the history ascending and keep the
consecutive gaps strictly above 0.25 hours. -/
def usableGaps (history : List ℚ) : List ℚ :=
  let times := history.insertionSort (· ≤ ·)
  (times.zip times.tail).filterMap
    (fun p => if mkRat 1 4 < p.2 - p.1 then some (p.2 - p.1) else none)

/-- `update_window_from_tod_history` (`bot.py` lines 178-223): returns the
updated mob together with the `(min, max, confidence)` triple the Python
function returns. -/
def update_window_from_tod_history (mob : Mob) : Mob × Option ℚ × Option ℚ × Conf :=
  let history := mob.tod_history
  if history.length < 2 then
    ({ mob with learned_confidence := .LOW }, none, none, .LOW)
  else
    let intervals := usableGaps history
    if intervals = [] then
      ({ mob with learned_confidence := .LOW }, none, none, .LOW)
    else
      let sortedIntervals := intervals.insertionSort (· ≤ ·)
      let trimmed := if 4 ≤ sortedIntervals.length then
          (sortedIntervals.drop 1).dropLast
        else sortedIntervals
      let min_h := round2 (listMin trimmed * mkRat 95 100)
      let max_h := round2 (listMax trimmed * mkRat 105 100)
      let n := intervals.length
      let conf : Conf := if n < 3 then .LOW else if n < 6 then .MEDIUM else .HIGH
      ({ mob with
          min_respawn_hours := some min_h
          max_respawn_hours := some max_h
          learned_confidence := conf },
        some min_h, some max_h, conf)

/-- Claim-side restatement of the learner (spec §4.3 steps 4-6): `trimmed`
drops one occurrence of the smallest and one of the largest usable gap when
there are at least 4 of them, and the confidence comes from the untrimmed
count. Compared with `update_window_from_tod_history` in the theorems. -/
def windowLearnerClaim (history : List ℚ) : Option ℚ × Option ℚ × Conf :=
  let gaps := usableGaps history
  let n := gaps.length
  let trimmed := if 4 ≤ n then (gaps.erase (listMin gaps)).erase (listMax gaps) else gaps
  (some (round2 (listMin trimmed * mkRat 95 100)),
   some (round2 (listMax trimmed * mkRat 105 100)),
   if n < 3 then .LOW else if n < 6 then .MEDIUM else .HIGH)

/-- Python `l[-10:]`: the last `n` elements of a list. -/
def takeLast (n : Nat) (l : List ℚ) : List ℚ := l.drop (l.length - n)

/-- Lines 429-431 of `bot.py`: append the new TOD, sort, keep the last 10. -/
def todHistoryUpdate (history : List ℚ) (t : ℚ) : List ℚ :=
  takeLast 10 ((history ++ [t]).insertionSort (· ≤ ·))

/-- The `tod` command's effect on a resolved mob record (`bot.py` lines
424-434): update display name, set `last_death`, update the history, re-run
the learner. -/
def todApply (mob : Mob) (name : String) (t : ℚ) : Mob :=
  (update_window_from_tod_history
    { mob with
        display_name := name
        last_death := some t
        tod_history := todHistoryUpdate mob.tod_history t }).1

/-- The `undo` command's effect on a resolved mob record (`bot.py` lines
649-670): `none` when there is no history, else pop the last entry and either
re-learn (if at least 2 entries remain) or clear the window and confidence. -/
def undoApply (mob : Mob) : Option Mob :=
  if mob.tod_history.isEmpty then none
  else
    let history := mob.tod_history.dropLast
    let m := { mob with tod_history := history }
    if 2 ≤ history.length then
      some (update_window_from_tod_history m).1
    else
      some { m with
              min_respawn_hours := none
              max_respawn_hours := none
              learned_confidence := .LOW }

/-- The `spawn` command's effect on a resolved, existing mob (`bot.py` lines
501-503): update display name and `last_spawn` only. -/
def spawnApply (mob : Mob) (name : String) (t : ℚ) : Mob :=
  { mob with display_name := name, last_spawn := some t }

/-- The `track` command's effect on a resolved, existing mob (`bot.py` lines
542-543). -/
def trackApply (mob : Mob) (name : String) : Mob :=
  { mob with display_name := name, tracking := true }

/-- The `untrack` command's effect (`bot.py` line 565). -/
def untrackApply (mob : Mob) : Mob :=
  { mob with tracking := false }

/-- The `renamemob` command's effect on the moved record (`bot.py` lines
624-626): only `display_name` changes; the record moves to a new key. -/
def renameApply (mob : Mob) (new_name : String) : Mob :=
  { mob with display_name := new_name }

/-- The `setwindow` command's effect on the resolved slot (`bot.py` lines
706-719): create a fresh record carrying the window, or overwrite exactly the
two window fields of an existing one. -/
def setwindowApplyMob (existing : Option Mob) (mob_name : String) (min_h max_h : ℚ) : Mob :=
  match existing with
  | none =>
      { newMob mob_name with
          min_respawn_hours := some min_h
          max_respawn_hours := some max_h }
  | some mob =>
      { mob with
          min_respawn_hours := some min_h
          max_respawn_hours := some max_h }

/-- The `setwindow` command from the point where `parts[-2]`/`parts[-1]` have
been through `float()` (`bot.py` lines 687-722): a failed parse is `none` and
aborts with the source's message; any successfully parsed pair is applied
with no further validation. -/
def setwindow_run (existing : Option Mob) (mob_name : String)
    (minTok maxTok : Option ℚ) : Except String Mob :=
  match minTok, maxTok with
  | some a, some b => .ok (setwindowApplyMob existing mob_name a b)
  | _, _ => .error "min and max must be numbers"

/-- Truncation toward zero, Python's `int()` on a real number. -/
def truncQ (q : ℚ) : ℤ := if 0 ≤ q then ⌊q⌋ else -⌊-q⌋

/-- `format_timedelta` (`bot.py` lines 84-97); the argument is the delta's
total seconds. -/
def format_timedelta (delta : ℚ) : String :=
  let total := (truncQ delta).natAbs
  let hours := total / 3600
  let rest := total % 3600
  let minutes := rest / 60
  let parts : List String := if hours ≠ 0 then [toString hours ++ "h"] else []
  let parts := if minutes ≠ 0 ∨ parts = [] then parts ++ [toString minutes ++ "m"] else parts
  String.intercalate " " parts

/-- Status of a tracked mob, abstracting the six message shapes of
`mob_status_line`; the window states carry the delta the line displays. -/
inductive MobStatus where
  | TRACKING_OFF
  | NO_WINDOW
  | NO_REFERENCE
  | CLOSED (opensIn : ℚ)
  | OPEN (timeLeft : ℚ)
  | OVERDUE (overdueBy : ℚ)
deriving DecidableEq, Repr

/-- The `last_death`-else-`last_spawn` reference point (`bot.py` lines
247-251). -/
def baseTime (mob : Mob) : Option ℚ :=
  match mob.last_death with
  | some t => some t
  | none => mob.last_spawn

/-- `mob_status_line` (`bot.py` lines 229-268), keeping the classification
and the displayed delta, dropping the message text. -/
def mob_status (mob : Mob) (now : ℚ) : MobStatus :=
  if mob.tracking = false then .TRACKING_OFF
  else
    match mob.min_respawn_hours, mob.max_respawn_hours with
    | some min_h, some max_h =>
        match baseTime mob with
        | none => .NO_REFERENCE
        | some base =>
            let earliest := base + min_h
            let latest := base + max_h
            if now < earliest then .CLOSED (earliest - now)
            else if earliest ≤ now ∧ now ≤ latest then .OPEN (latest - now)
            else .OVERDUE (now - latest)
    | _, _ => .NO_WINDOW

def MobStatus.isTrackingOff : MobStatus → Bool
  | .TRACKING_OFF => true
  | _ => false

def MobStatus.isNoWindow : MobStatus → Bool
  | .NO_WINDOW => true
  | _ => false

def MobStatus.isNoReference : MobStatus → Bool
  | .NO_REFERENCE => true
  | _ => false

def MobStatus.isClosed : MobStatus → Bool
  | .CLOSED _ => true
  | _ => false

def MobStatus.isOpen : MobStatus → Bool
  | .OPEN _ => true
  | _ => false

def MobStatus.isOverdue : MobStatus → Bool
  | .OVERDUE _ => true
  | _ => false

/-- Python's `str.lower()`, character by character over the string's data
(written on the char list so that it evaluates inside the kernel). -/
def pyLower (s : String) : String := ⟨s.data.map Char.toLower⟩

/-- Python's `str.strip()`: drop leading and trailing whitespace. -/
def pyStrip (s : String) : String :=
  ⟨((s.data.dropWhile Char.isWhitespace).reverse.dropWhile Char.isWhitespace).reverse⟩

/-- Result shape of `fuzzy_find_mob`: string / list / `None` in the source. -/
inductive FuzzyResult where
  | exact (key : String)
  | ambiguous (keys : List String)
  | notFound
deriving DecidableEq, Repr

/-- difflib's `get_close_matches(word, possibilities, n, cutoff)`, over an
abstract similarity measure `sim` standing for `SequenceMatcher.ratio`: keep
the possibilities scoring at least `cutoff`, rank them by descending score
(order among equal scores is abstracted) and return the best `n` words. -/
def get_close_matches (sim : String → String → ℚ) (word : String)
    (possibilities : List String) (n : Nat) (cutoff : ℚ) : List String :=
  let result := possibilities.filterMap
    (fun x => if cutoff ≤ sim word x then some (sim word x, x) else none)
  let best := result.insertionSort (fun a b => b.1 ≤ a.1)
  (best.take n).map Prod.snd

/-- `fuzzy_find_mob` (`bot.py` lines 150-172), over the group's key list. -/
def fuzzy_find_mob (sim : String → String → ℚ) (name : String)
    (keys : List String) : FuzzyResult :=
  let name := pyStrip (pyLower name)
  if name ∈ keys then .exact name
  else
    match get_close_matches sim name keys 3 (mkRat 6 10) with
    | [k] => .exact k
    | [] => .notFound
    | ks => .ambiguous ks

/-- One calendar instant: a day index and the minute-of-day (fractional, so
seconds and microseconds are representable). The model has no DST, so
subtracting a day is subtracting one from `day`. -/
structure DateTime where
  day : ℤ
  minuteOfDay : ℚ
deriving DecidableEq, Repr

/-- Strict comparison of instants (lexicographic on day, then time). -/
def DateTime.ltB (a b : DateTime) : Bool :=
  a.day < b.day || (a.day = b.day && a.minuteOfDay < b.minuteOfDay)

/-- Decode a digit string, Python's `int` on it. -/
def digitsToNat (s : String) : Nat :=
  s.data.foldl (fun acc c => 10 * acc + (c.toNat - 48)) 0

/-- A token accepted by `parse_time_str`: all digits, length 3 or 4. -/
def validTimeToken (s : String) : Prop :=
  s.data.all Char.isDigit ∧ (s.length = 3 ∨ s.length = 4)

instance (s : String) : Decidable (validTimeToken s) := by
  unfold validTimeToken; infer_instance

/-- Hour decoded from a 3- or 4-digit token (`s[0]` resp. `s[:2]`). -/
def tokenHour (s : String) : Nat :=
  if s.length = 3 then digitsToNat ⟨s.data.take 1⟩ else digitsToNat ⟨s.data.take 2⟩

/-- Minute decoded from a 3- or 4-digit token (`s[1:]` resp. `s[2:]`). -/
def tokenMinute (s : String) : Nat :=
  if s.length = 3 then digitsToNat ⟨s.data.drop 1⟩ else digitsToNat ⟨s.data.drop 2⟩

/-- `parse_time_str` (`bot.py` lines 117-144). `for_date` is the day index of
an explicit date argument, `now` the current instant. -/
def parse_time_str (time_str : String) (for_date : Option ℤ) (now : DateTime) :
    Except String DateTime :=
  let s := pyStrip time_str
  if ¬ validTimeToken s then .error "Time must be HMM or HHMM"
  else
    let hour := tokenHour s
    let minute := tokenMinute s
    if ¬ (hour ≤ 23 ∧ minute ≤ 59) then .error "Invalid numeric time"
    else
      match for_date with
      | some d => .ok ⟨d, 60 * hour + minute⟩
      | none =>
          let dt : DateTime := ⟨now.day, 60 * hour + minute⟩
          if now.ltB dt then .ok ⟨now.day - 1, dt.minuteOfDay⟩ else .ok dt

/-- Invariant claimed for every mob's history: bounded capacity and sorted
ascending. -/
def histInvariant (l : List ℚ) : Prop :=
  l.length ≤ 10 ∧ l.Sorted (· ≤ ·)

/-! ### Helper lemmas -/

lemma truncQ_neg (q : ℚ) : truncQ (-q) = -truncQ q := by
  unfold truncQ
  rcases lt_trichotomy q 0 with h | h | h
  · rw [if_pos (by linarith), if_neg (by linarith)]
    simp
  · subst h; simp
  · rw [if_neg (by simpa using not_le.mpr h), if_pos h.le]
    simp

lemma intercalate_singleton (a : String) : String.intercalate " " [a] = a := rfl

lemma intercalate_pair (a b : String) : String.intercalate " " [a, b] = a ++ " " ++ b := rfl

lemma h_space_append (x : String) : ("h" : String) ++ (" " ++ x) = "h " ++ x := by
  have h : ("h" : String) ++ " " = "h " := by decide
  rw [← String.append_assoc, h]

lemma learner_fst_fields (m : Mob) :
    (update_window_from_tod_history m).1.tod_history = m.tod_history
    ∧ (update_window_from_tod_history m).1.last_death = m.last_death
    ∧ (update_window_from_tod_history m).1.last_spawn = m.last_spawn
    ∧ (update_window_from_tod_history m).1.display_name = m.display_name
    ∧ (update_window_from_tod_history m).1.tracking = m.tracking := by
  unfold update_window_from_tod_history
  by_cases h1 : m.tod_history.length < 2
  · simp [h1]
  · by_cases h2 : usableGaps m.tod_history = [] <;> simp [h1, h2]

/-! ### C1 — setwindow validation -/

/-- Existing mob used to exhibit the missing `setwindow` validation. -/
def c1Mob : Mob :=
  { newMob "a" with tod_history := [0], learned_confidence := .MEDIUM }

/-- C1 counterexample: the arguments `min_h = 5`, `max_h = 3` violate
`min_h ≤ max_h`, yet `setwindow` succeeds and overwrites the entity's window:
the code performs no numeric-range validation, contradicting the claim that
such an invocation "fails validation and no entity state is mutated". -/
theorem C1_setwindow_counterexample :
    ¬ ((5 : ℚ) ≤ 3)
    ∧ setwindow_run (some c1Mob) "a" (some 5) (some 3) =
        .ok { c1Mob with min_respawn_hours := some 5, max_respawn_hours := some 3 } :=
  ⟨by norm_num, rfl⟩

/-- C1 (amended): `setwindow` fails only when `min`/`max` do not parse as
numbers (no entity state produced); every successfully parsed pair — with no
`min_h > 0`, `max_h > 0` or `min_h ≤ max_h` check — overwrites exactly
`min_respawn_hours` and `max_respawn_hours` of an existing entity, leaving
`tod_history`, `learned_confidence` and all other fields untouched, and
creates a fresh default entity carrying the window when the key is new. -/
theorem C1_setwindow_amended (mob : Mob) (nm : String) (a b : ℚ) (x : Option ℚ) :
    setwindow_run (some mob) nm (some a) (some b) =
      .ok { mob with min_respawn_hours := some a, max_respawn_hours := some b }
    ∧ (setwindowApplyMob (some mob) nm a b).tod_history = mob.tod_history
    ∧ (setwindowApplyMob (some mob) nm a b).learned_confidence = mob.learned_confidence
    ∧ setwindow_run (some mob) nm none x = .error "min and max must be numbers"
    ∧ setwindow_run (some mob) nm (some a) none = .error "min and max must be numbers"
    ∧ setwindow_run none nm (some a) (some b) =
        .ok { newMob nm with min_respawn_hours := some a, max_respawn_hours := some b } := by
  refine ⟨rfl, rfl, rfl, ?_, rfl, rfl⟩
  cases x <;> rfl

/-! ### C4 — format_timedelta -/

/-- C4 counterexample: a delta of exactly 5 hours (18000 seconds) is rendered
`"5h"` with no minutes component, contradicting the claim that a `0m`
component is always shown even when an hours component is present. -/
theorem C4_format_counterexample :
    format_timedelta 18000 = "5h" ∧ "5h" ≠ "5h 0m" := by
  exact ⟨by decide, by decide⟩

/-- C4 (amended): `format_timedelta` displays a non-negative duration
regardless of the input's sign and omits the hours component when the
whole-hours part is zero; the minutes component is shown when it is nonzero
or when the hours component is absent — when hours are present and the
minutes remainder is zero, only the hours component is shown. -/
theorem C4_format_amended (q : ℚ) :
    format_timedelta (-q) = format_timedelta q
    ∧ format_timedelta q =
        (if (truncQ q).natAbs / 3600 = 0 then
          toString ((truncQ q).natAbs % 3600 / 60) ++ "m"
        else if (truncQ q).natAbs % 3600 / 60 = 0 then
          toString ((truncQ q).natAbs / 3600) ++ "h"
        else
          toString ((truncQ q).natAbs / 3600) ++ "h "
            ++ toString ((truncQ q).natAbs % 3600 / 60) ++ "m") := by
  constructor
  · unfold format_timedelta
    rw [truncQ_neg, Int.natAbs_neg]
  · unfold format_timedelta
    by_cases hh : (truncQ q).natAbs / 3600 = 0 <;>
      by_cases hm : (truncQ q).natAbs % 3600 / 60 = 0 <;>
        simp [hh, hm, intercalate_singleton, intercalate_pair,
          String.append_assoc, h_space_append]

/-! ### C9 — learner on insufficient data -/

/-- C9: with fewer than 2 history entries, or with no usable gap, the learner
returns `(none, none, LOW)` and the updated mob differs from the input only
in `learned_confidence := LOW` — in particular the stored
`min_respawn_hours` and `max_respawn_hours` are unchanged. -/
theorem C9_learner_insufficient (mob : Mob) :
    (mob.tod_history.length < 2 →
      update_window_from_tod_history mob =
        ({ mob with learned_confidence := .LOW }, none, none, .LOW))
    ∧ (usableGaps mob.tod_history = [] →
      update_window_from_tod_history mob =
        ({ mob with learned_confidence := .LOW }, none, none, .LOW)) := by
  constructor
  · intro h
    unfold update_window_from_tod_history
    simp [h]
  · intro h
    unfold update_window_from_tod_history
    by_cases h2 : mob.tod_history.length < 2 <;> simp [h2, h]

/-- Mob with a manually set window and two history entries 0.1 h apart, so
that no usable gap survives the 0.25 h noise filter. -/
def c9Mob : Mob :=
  { newMob "a" with
      tod_history := [0, mkRat 1 10]
      min_respawn_hours := some 8
      max_respawn_hours := some 12 }

unseal Rat.sub in
theorem C9_learner_insufficient_witness :
    usableGaps c9Mob.tod_history = []
    ∧ update_window_from_tod_history c9Mob =
        ({ c9Mob with learned_confidence := .LOW }, none, none, .LOW) :=
  ⟨by decide, (C9_learner_insufficient c9Mob).2 (by decide)⟩

/-! ### C3 — status classification -/

/-- Mob with an inverted window (min 12 > max 8), which `setwindow` accepts
(see C1), a death reference at time 0 and no other data. -/
def c3Mob : Mob :=
  { newMob "m" with
      min_respawn_hours := some 12
      max_respawn_hours := some 8
      last_death := some 0 }

unseal Rat.add Rat.sub in
/-- C3 counterexample: for the inverted window [12, 8] with reference 0 and
`now = 10`, the code reports CLOSED although `now > reference + max_hours`,
so the claimed "OVERDUE iff now > reference + max_hours" fails as stated
(the claim holds only when `min_hours ≤ max_hours`). -/
theorem C3_status_counterexample :
    mob_status c3Mob 10 = .CLOSED 2
    ∧ ((0 : ℚ) + 8 < 10)
    ∧ ¬ ((mob_status c3Mob 10).isOverdue = true ↔ (0 : ℚ) + 8 < 10) := by
  refine ⟨by decide, by decide, by decide⟩

/-- C3 (amended): for an entity with tracking on, both window bounds present
with `min_hours ≤ max_hours`, and a reference timestamp (`last_death` first,
else `last_spawn`), the status is CLOSED iff `now < reference + min_hours`,
OPEN iff `reference + min_hours ≤ now ≤ reference + max_hours` (both edges
inclusive) and OVERDUE iff `now > reference + max_hours`; together with
TRACKING_OFF (tracking flag false, everything else ignored), NO_WINDOW (a
window bound absent) and NO_REFERENCE (window present, no reference), the
classification is mutually exclusive and exhaustive. -/
theorem C3_status_amended (mob : Mob) (now r a b : ℚ)
    (htr : mob.tracking = true) (hmin : mob.min_respawn_hours = some a)
    (hmax : mob.max_respawn_hours = some b) (hab : a ≤ b)
    (href : baseTime mob = some r) :
    ((mob_status mob now).isClosed = true ↔ now < r + a)
    ∧ ((mob_status mob now).isOpen = true ↔ (r + a ≤ now ∧ now ≤ r + b))
    ∧ ((mob_status mob now).isOverdue = true ↔ r + b < now)
    ∧ ((mob_status mob now).isTrackingOff = false
        ∧ (mob_status mob now).isNoWindow = false
        ∧ (mob_status mob now).isNoReference = false)
    ∧ (∀ m : Mob, (mob_status m now).isTrackingOff = true ↔ m.tracking = false)
    ∧ (∀ m : Mob, m.tracking = true →
        ((mob_status m now).isNoWindow = true ↔
          (m.min_respawn_hours = none ∨ m.max_respawn_hours = none)))
    ∧ (∀ m : Mob, m.tracking = true → m.min_respawn_hours ≠ none →
        m.max_respawn_hours ≠ none →
        ((mob_status m now).isNoReference = true ↔ baseTime m = none)) := by
  have hstat : mob_status mob now =
      (if now < r + a then MobStatus.CLOSED (r + a - now)
       else if r + a ≤ now ∧ now ≤ r + b then MobStatus.OPEN (r + b - now)
       else MobStatus.OVERDUE (now - (r + b))) := by
    unfold mob_status
    rw [htr, hmin, hmax, href]
    simp
  refine ⟨?_, ?_, ?_, ?_, ?_, ?_, ?_⟩
  · rw [hstat]
    split_ifs with h1 h2 <;> simp [MobStatus.isClosed, h1]
  · rw [hstat]
    split_ifs with h1 h2
    · simp only [MobStatus.isOpen]
      simp only [Bool.false_eq_true, false_iff, not_and, not_le]
      intro hx
      linarith
    · simp [MobStatus.isOpen, h2]
    · simp [MobStatus.isOpen, h2]
  · rw [hstat]
    split_ifs with h1 h2
    · simp only [MobStatus.isOverdue]
      simp only [Bool.false_eq_true, false_iff, not_lt]
      linarith
    · simp only [MobStatus.isOverdue]
      simp only [Bool.false_eq_true, false_iff, not_lt]
      linarith [h2.2]
    · simp only [MobStatus.isOverdue, true_iff]
      rcases not_and_or.mp h2 with hx | hx
      · exact absurd (le_of_not_lt h1) hx
      · exact lt_of_not_le hx
  · rw [hstat]
    split_ifs <;>
      simp [MobStatus.isTrackingOff, MobStatus.isNoWindow, MobStatus.isNoReference]
  · intro m
    by_cases ht : m.tracking = false
    · simp [mob_status, ht, MobStatus.isTrackingOff]
    · unfold mob_status
      rw [if_neg ht]
      rcases m.min_respawn_hours with _ | x <;> rcases m.max_respawn_hours with _ | y <;>
        rcases hb : baseTime m with _ | z <;>
          simp [MobStatus.isTrackingOff, MobStatus.isNoWindow, MobStatus.isNoReference, ht] <;>
            split_ifs <;> simp [MobStatus.isTrackingOff]
  · intro m ht
    unfold mob_status
    rw [ht]
    rcases m.min_respawn_hours with _ | x <;> rcases m.max_respawn_hours with _ | y <;>
      rcases hb : baseTime m with _ | z <;>
        simp [MobStatus.isNoWindow] <;> split_ifs <;> simp [MobStatus.isNoWindow]
  · intro m ht hx hy
    unfold mob_status
    rw [ht]
    rcases hmx : m.min_respawn_hours with _ | x
    · exact absurd hmx hx
    rcases hmy : m.max_respawn_hours with _ | y
    · exact absurd hmy hy
    rcases hb : baseTime m with _ | z <;>
      simp [MobStatus.isNoReference, hb] <;> split_ifs <;> simp [MobStatus.isNoReference]

/-- Mob with the spec's example window [8, 12] and a death at time 0. -/
def c3WitMob : Mob :=
  { newMob "w" with
      min_respawn_hours := some 8
      max_respawn_hours := some 12
      last_death := some 0 }

theorem C3_status_amended_witness :
    ((mob_status c3WitMob 10).isClosed = true ↔ (10 : ℚ) < 0 + 8)
    ∧ ((mob_status c3WitMob 10).isOpen = true ↔
        ((0 : ℚ) + 8 ≤ 10 ∧ (10 : ℚ) ≤ 0 + 12))
    ∧ ((mob_status c3WitMob 10).isOverdue = true ↔ (0 : ℚ) + 12 < 10)
    ∧ ((mob_status c3WitMob 10).isTrackingOff = false
        ∧ (mob_status c3WitMob 10).isNoWindow = false
        ∧ (mob_status c3WitMob 10).isNoReference = false)
    ∧ (∀ m : Mob, (mob_status m 10).isTrackingOff = true ↔ m.tracking = false)
    ∧ (∀ m : Mob, m.tracking = true →
        ((mob_status m 10).isNoWindow = true ↔
          (m.min_respawn_hours = none ∨ m.max_respawn_hours = none)))
    ∧ (∀ m : Mob, m.tracking = true → m.min_respawn_hours ≠ none →
        m.max_respawn_hours ≠ none →
        ((mob_status m 10).isNoReference = true ↔ baseTime m = none)) :=
  C3_status_amended c3WitMob 10 0 8 12 rfl rfl rfl (by norm_num) rfl

/-! ### C5 — undo -/

lemma sorted_mem_le_getLast :
    ∀ (l : List ℚ), l.Sorted (· ≤ ·) → ∀ (h : l ≠ []) (x : ℚ), x ∈ l → x ≤ l.getLast h
  | [a], _, _, x, hx => by
      simp only [List.mem_singleton] at hx
      simp [hx]
  | a :: b :: t, hs, _, x, hx => by
      rw [List.sorted_cons] at hs
      rw [List.getLast_cons (by simp : b :: t ≠ [])]
      rcases List.mem_cons.mp hx with rfl | hx
      · exact hs.1 _ (List.getLast_mem _)
      · exact sorted_mem_le_getLast (b :: t) hs.2 (by simp) x hx

/-- C5: `undo` on a non-empty history removes exactly the last history entry
(which, the history being sorted, is the most recent one); if at least 2
entries remain the learner is re-run and its outputs stored; if fewer than 2
remain, `min_respawn_hours`/`max_respawn_hours` are cleared to `none` and the
confidence to LOW — whatever window was stored before, including a manually
set one. -/
theorem C5_undo (mob : Mob) (hne : mob.tod_history ≠ []) :
    ∃ m', undoApply mob = some m'
      ∧ m'.tod_history = mob.tod_history.dropLast
      ∧ (mob.tod_history.Sorted (· ≤ ·) →
          ∀ x ∈ mob.tod_history, x ≤ mob.tod_history.getLast hne)
      ∧ (2 ≤ mob.tod_history.dropLast.length →
          m' = (update_window_from_tod_history
                  { mob with tod_history := mob.tod_history.dropLast }).1)
      ∧ (mob.tod_history.dropLast.length < 2 →
          m'.min_respawn_hours = none ∧ m'.max_respawn_hours = none
            ∧ m'.learned_confidence = .LOW) := by
  have hemp : mob.tod_history.isEmpty = false := by
    simp [List.isEmpty_iff, hne]
  by_cases h2 : 2 ≤ mob.tod_history.dropLast.length
  · refine ⟨(update_window_from_tod_history
        { mob with tod_history := mob.tod_history.dropLast }).1, ?_, ?_, ?_, ?_, ?_⟩
    · have h2' : 2 ≤ mob.tod_history.length - 1 := by
        simpa using h2
      simp [undoApply, hemp, h2']
    · simpa using (learner_fst_fields _).1
    · intro hs x hx
      exact sorted_mem_le_getLast _ hs hne x hx
    · intro _
      rfl
    · intro hlt
      omega
  · refine ⟨{ mob with
        tod_history := mob.tod_history.dropLast
        min_respawn_hours := none
        max_respawn_hours := none
        learned_confidence := .LOW }, ?_, rfl, ?_, ?_, ?_⟩
    · have h2' : ¬ 2 ≤ mob.tod_history.length - 1 := by
        simpa using h2
      simp [undoApply, hemp, h2']
    · intro hs x hx
      exact sorted_mem_le_getLast _ hs hne x hx
    · intro hge
      omega
    · intro _
      exact ⟨rfl, rfl, rfl⟩

/-- Mob with a 2-entry history and a manually set window, exercising the
clearing branch of undo. -/
def c5Mob : Mob :=
  { newMob "a" with
      tod_history := [1, 2]
      min_respawn_hours := some 8
      max_respawn_hours := some 12
      learned_confidence := .HIGH }

theorem C5_undo_witness :
    c5Mob.tod_history ≠ []
    ∧ ∃ m', undoApply c5Mob = some m'
      ∧ m'.tod_history = c5Mob.tod_history.dropLast
      ∧ (c5Mob.tod_history.Sorted (· ≤ ·) →
          ∀ x ∈ c5Mob.tod_history, x ≤ c5Mob.tod_history.getLast (by decide))
      ∧ (2 ≤ c5Mob.tod_history.dropLast.length →
          m' = (update_window_from_tod_history
                  { c5Mob with tod_history := c5Mob.tod_history.dropLast }).1)
      ∧ (c5Mob.tod_history.dropLast.length < 2 →
          m'.min_respawn_hours = none ∧ m'.max_respawn_hours = none
            ∧ m'.learned_confidence = .LOW) :=
  ⟨by decide, C5_undo c5Mob (by decide)⟩

/-! ### C10 — tod with a backdated timestamp -/

/-- C10: recording a death at `t` sets `last_death := t` unconditionally and
replaces the history by the last 10 entries of the sorted old-history-plus-t;
in particular, when the history already holds 10 entries all strictly later
than `t`, the history is left unchanged while `last_death` moves to `t`. -/
theorem C10_tod_backdated (mob : Mob) (name : String) (t : ℚ) :
    (todApply mob name t).last_death = some t
    ∧ (todApply mob name t).tod_history =
        takeLast 10 ((mob.tod_history ++ [t]).insertionSort (· ≤ ·))
    ∧ (mob.tod_history.length = 10 → mob.tod_history.Sorted (· ≤ ·) →
        (∀ x ∈ mob.tod_history, t < x) →
        (todApply mob name t).tod_history = mob.tod_history) := by
  have hhist : (todApply mob name t).tod_history = todHistoryUpdate mob.tod_history t := by
    simpa [todApply] using (learner_fst_fields _).1
  refine ⟨?_, ?_, ?_⟩
  · simpa [todApply] using (learner_fst_fields _).2.1
  · rw [hhist, todHistoryUpdate]
  · intro hlen hs hlt
    have hsort : (mob.tod_history ++ [t]).insertionSort (· ≤ ·) = t :: mob.tod_history := by
      exact List.eq_of_perm_of_sorted
        ((List.perm_insertionSort _ _).trans List.perm_append_comm)
        (List.sorted_insertionSort _ _)
        (by
          rw [List.sorted_cons]
          exact ⟨fun b hb => (hlt b hb).le, hs⟩)
    rw [hhist, todHistoryUpdate, hsort]
    simp [takeLast, hlen]

/-- Mob holding 10 death timestamps, all later than 0. -/
def c10Mob : Mob :=
  { newMob "a" with tod_history := [1, 2, 3, 4, 5, 6, 7, 8, 9, 10] }

theorem C10_tod_backdated_witness :
    c10Mob.tod_history.length = 10
    ∧ c10Mob.tod_history.Sorted (· ≤ ·)
    ∧ (∀ x ∈ c10Mob.tod_history, (0 : ℚ) < x)
    ∧ (todApply c10Mob "a" 0).tod_history = c10Mob.tod_history
    ∧ (todApply c10Mob "a" 0).last_death = some 0 :=
  ⟨by decide, by decide, by decide,
    (C10_tod_backdated c10Mob "a" 0).2.2 (by decide) (by decide) (by decide),
    (C10_tod_backdated c10Mob "a" 0).1⟩

/-! ### C6 — history invariant -/

instance (l : List ℚ) : Decidable (histInvariant l) := by
  unfold histInvariant
  infer_instance

/-- Lift of `histInvariant` to an operation that may fail (undo on empty
history). -/
def histInvariantOpt : Option Mob → Prop
  | none => True
  | some m => histInvariant m.tod_history

lemma histInvariant_todHistoryUpdate (l : List ℚ) (t : ℚ) :
    histInvariant (todHistoryUpdate l t) := by
  constructor
  · simp only [todHistoryUpdate, takeLast, List.length_drop]
    omega
  · exact List.Pairwise.sublist (List.drop_sublist _ _) (List.sorted_insertionSort _ _)

lemma histInvariant_dropLast {l : List ℚ} (h : histInvariant l) :
    histInvariant l.dropLast := by
  obtain ⟨hlen, hsort⟩ := h
  constructor
  · simp only [List.length_dropLast]
    omega
  · exact List.Pairwise.sublist (List.dropLast_sublist _) hsort

/-- C6: every mutating operation preserves the history invariant (length at
most 10 and entries sorted ascending): `tod` re-establishes it outright on
any input history, `undo` preserves it, entity creation establishes it, and
`spawn` / `track` / `untrack` / `renamemob` / `setwindow` leave the history
untouched. -/
theorem C6_history_invariant (mob : Mob) (h : List ℚ) (t a b : ℚ) (name : String) :
    histInvariant (todHistoryUpdate h t)
    ∧ histInvariant (todApply mob name t).tod_history
    ∧ (histInvariant mob.tod_history → histInvariantOpt (undoApply mob))
    ∧ histInvariant (newMob name).tod_history
    ∧ (spawnApply mob name t).tod_history = mob.tod_history
    ∧ (trackApply mob name).tod_history = mob.tod_history
    ∧ (untrackApply mob).tod_history = mob.tod_history
    ∧ (renameApply mob name).tod_history = mob.tod_history
    ∧ (setwindowApplyMob (some mob) name a b).tod_history = mob.tod_history := by
  refine ⟨histInvariant_todHistoryUpdate h t, ?_, ?_, ?_, rfl, rfl, rfl, rfl, rfl⟩
  · have hh : (todApply mob name t).tod_history = todHistoryUpdate mob.tod_history t := by
      simpa [todApply] using (learner_fst_fields _).1
    rw [hh]
    exact histInvariant_todHistoryUpdate _ _
  · intro hinv
    have hdrop := histInvariant_dropLast hinv
    by_cases he : mob.tod_history.isEmpty
    · simp [undoApply, he, histInvariantOpt]
    · by_cases h2 : 2 ≤ mob.tod_history.length - 1
      · simp only [undoApply, he, Bool.false_eq_true, if_false, List.length_dropLast,
          h2, if_true, histInvariantOpt]
        rw [(learner_fst_fields _).1]
        exact hdrop
      · simp only [undoApply, he, Bool.false_eq_true, if_false, List.length_dropLast,
          h2, if_false, histInvariantOpt]
        exact hdrop
  · exact ⟨by simp [newMob], by simp [newMob]⟩

/-- Mob with a short sorted history for exercising the undo branch of C6. -/
def c6Mob : Mob := { newMob "a" with tod_history := [1, 2, 3] }

theorem C6_history_invariant_witness :
    histInvariant c6Mob.tod_history
    ∧ histInvariantOpt (undoApply c6Mob)
    ∧ histInvariant (todHistoryUpdate [1, 2] 0) :=
  ⟨by decide,
    (C6_history_invariant c6Mob [1, 2] 0 1 2 "a").2.2.1 (by decide),
    (C6_history_invariant c6Mob [1, 2] 0 1 2 "a").1⟩

/-! ### C2 — learner on sufficient data -/

lemma foldl_min_cases : ∀ (xs : List ℚ) (x : ℚ), xs.foldl min x = x ∨ xs.foldl min x ∈ xs
  | [], _ => Or.inl rfl
  | y :: ys, x => by
      rw [List.foldl_cons]
      rcases foldl_min_cases ys (min x y) with h | h
      · rcases min_choice x y with hc | hc
        · exact Or.inl (h.trans hc)
        · exact Or.inr (by rw [h, hc]; exact List.mem_cons_self y ys)
      · exact Or.inr (List.mem_cons_of_mem y h)

lemma foldl_min_le_init : ∀ (xs : List ℚ) (x : ℚ), xs.foldl min x ≤ x
  | [], x => le_refl x
  | y :: ys, x => by
      rw [List.foldl_cons]
      exact (foldl_min_le_init ys (min x y)).trans (min_le_left x y)

lemma foldl_min_le_mem : ∀ (xs : List ℚ) (x a : ℚ), a ∈ xs → xs.foldl min x ≤ a
  | [], _, _, ha => absurd ha (List.not_mem_nil _)
  | y :: ys, x, a, ha => by
      rw [List.foldl_cons]
      rcases List.mem_cons.mp ha with rfl | ha
      · exact (foldl_min_le_init ys (min x a)).trans (min_le_right x a)
      · exact foldl_min_le_mem ys (min x y) a ha

lemma listMin_mem : ∀ {l : List ℚ}, l ≠ [] → listMin l ∈ l
  | [], h => absurd rfl h
  | x :: xs, _ => by
      show xs.foldl min x ∈ x :: xs
      rcases foldl_min_cases xs x with hc | hc
      · rw [hc]
        exact List.mem_cons_self x xs
      · exact List.mem_cons_of_mem x hc

lemma listMin_le : ∀ {l : List ℚ} {a : ℚ}, a ∈ l → listMin l ≤ a
  | [], _, ha => absurd ha (List.not_mem_nil _)
  | x :: xs, a, ha => by
      show xs.foldl min x ≤ a
      rcases List.mem_cons.mp ha with rfl | ha
      · exact foldl_min_le_init xs a
      · exact foldl_min_le_mem xs x a ha

lemma listMin_eq_of_perm {l l' : List ℚ} (p : l.Perm l') : listMin l = listMin l' := by
  rcases eq_or_ne l [] with rfl | h
  · rw [p.symm.eq_nil]
  · have h' : l' ≠ [] := fun he => h ((he ▸ p).eq_nil)
    exact le_antisymm (listMin_le (p.symm.subset (listMin_mem h')))
      (listMin_le (p.subset (listMin_mem h)))

lemma foldl_max_cases : ∀ (xs : List ℚ) (x : ℚ), xs.foldl max x = x ∨ xs.foldl max x ∈ xs
  | [], _ => Or.inl rfl
  | y :: ys, x => by
      rw [List.foldl_cons]
      rcases foldl_max_cases ys (max x y) with h | h
      · rcases max_choice x y with hc | hc
        · exact Or.inl (h.trans hc)
        · exact Or.inr (by rw [h, hc]; exact List.mem_cons_self y ys)
      · exact Or.inr (List.mem_cons_of_mem y h)

lemma foldl_max_ge_init : ∀ (xs : List ℚ) (x : ℚ), x ≤ xs.foldl max x
  | [], x => le_refl x
  | y :: ys, x => by
      rw [List.foldl_cons]
      exact (le_max_left x y).trans (foldl_max_ge_init ys (max x y))

lemma foldl_max_ge_mem : ∀ (xs : List ℚ) (x a : ℚ), a ∈ xs → a ≤ xs.foldl max x
  | [], _, _, ha => absurd ha (List.not_mem_nil _)
  | y :: ys, x, a, ha => by
      rw [List.foldl_cons]
      rcases List.mem_cons.mp ha with rfl | ha
      · exact (le_max_right x a).trans (foldl_max_ge_init ys (max x a))
      · exact foldl_max_ge_mem ys (max x y) a ha

lemma listMax_mem : ∀ {l : List ℚ}, l ≠ [] → listMax l ∈ l
  | [], h => absurd rfl h
  | x :: xs, _ => by
      show xs.foldl max x ∈ x :: xs
      rcases foldl_max_cases xs x with hc | hc
      · rw [hc]
        exact List.mem_cons_self x xs
      · exact List.mem_cons_of_mem x hc

lemma listMax_ge : ∀ {l : List ℚ} {a : ℚ}, a ∈ l → a ≤ listMax l
  | [], _, ha => absurd ha (List.not_mem_nil _)
  | x :: xs, a, ha => by
      show a ≤ xs.foldl max x
      rcases List.mem_cons.mp ha with rfl | ha
      · exact foldl_max_ge_init xs a
      · exact foldl_max_ge_mem xs x a ha

lemma listMax_eq_of_perm {l l' : List ℚ} (p : l.Perm l') : listMax l = listMax l' := by
  rcases eq_or_ne l [] with rfl | h
  · rw [p.symm.eq_nil]
  · have h' : l' ≠ [] := fun he => h ((he ▸ p).eq_nil)
    exact le_antisymm (listMax_ge (p.subset (listMax_mem h)))
      (listMax_ge (p.symm.subset (listMax_mem h')))

lemma sorted_listMin_head {x : ℚ} {xs : List ℚ} (hs : (x :: xs).Sorted (· ≤ ·)) :
    listMin (x :: xs) = x := by
  refine le_antisymm (listMin_le (List.mem_cons_self x xs)) ?_
  have hm := @listMin_mem (x :: xs) (by simp)
  rcases List.mem_cons.mp hm with he | hm'
  · rw [he]
  · exact (List.sorted_cons.mp hs).1 _ hm'

lemma sorted_listMax_getLast {l : List ℚ} (hs : l.Sorted (· ≤ ·)) (h : l ≠ []) :
    listMax l = l.getLast h := by
  refine le_antisymm ?_ (listMax_ge (l.getLast_mem h))
  exact sorted_mem_le_getLast l hs h _ (listMax_mem h)

lemma sorted_listMax_tail {x : ℚ} {xs : List ℚ} (hs : (x :: xs).Sorted (· ≤ ·))
    (hne : xs ≠ []) : listMax (x :: xs) = listMax xs := by
  refine le_antisymm ?_ (listMax_ge (List.mem_cons_of_mem x (listMax_mem hne)))
  have hm := @listMax_mem (x :: xs) (by simp)
  rcases List.mem_cons.mp hm with he | hm'
  · rw [he]
    exact (List.sorted_cons.mp hs).1 _ (listMax_mem hne)
  · exact listMax_ge hm'

lemma erase_listMax_perm_dropLast {l : List ℚ} (hs : l.Sorted (· ≤ ·)) (h : l ≠ []) :
    (l.erase (listMax l)).Perm l.dropLast := by
  obtain ⟨l', M, rfl⟩ : ∃ l' M, l = l' ++ [M] :=
    ⟨l.dropLast, l.getLast h, (List.dropLast_concat_getLast h).symm⟩
  have hM : listMax (l' ++ [M]) = M := by
    rw [sorted_listMax_getLast hs (by simp)]
    exact List.getLast_concat _
  rw [hM, List.dropLast_concat]
  by_cases hm : M ∈ l'
  · rw [List.erase_append_left _ hm]
    exact List.perm_append_comm.trans (List.perm_cons_erase hm).symm
  · rw [List.erase_append_right _ hm]
    simp

lemma trimmed_perm {gaps s : List ℚ} (hperm : s.Perm gaps) (hs : s.Sorted (· ≤ ·))
    (h4 : 4 ≤ gaps.length) :
    ((s.drop 1).dropLast).Perm ((gaps.erase (listMin gaps)).erase (listMax gaps)) := by
  have hlen : s.length = gaps.length := hperm.length_eq
  obtain ⟨x, xs, rfl⟩ : ∃ x xs, s = x :: xs := by
    cases s with
    | nil => simp at hlen; omega
    | cons a l => exact ⟨a, l, rfl⟩
  have hxsne : xs ≠ [] := by
    intro he
    subst he
    simp at hlen
    omega
  have hming : listMin gaps = x :=
    (listMin_eq_of_perm hperm).symm.trans (sorted_listMin_head hs)
  have hxs_sorted : xs.Sorted (· ≤ ·) := (List.sorted_cons.mp hs).2
  have hmaxg : listMax gaps = listMax xs :=
    (listMax_eq_of_perm hperm).symm.trans (sorted_listMax_tail hs hxsne)
  have e1 : (gaps.erase (listMin gaps)).Perm xs := by
    have h1 : (x :: xs).erase (listMin gaps) = xs := by
      rw [hming, List.erase_cons_head]
    exact (h1 ▸ (hperm.symm.erase (listMin gaps)))
  have e2 : ((gaps.erase (listMin gaps)).erase (listMax gaps)).Perm xs.dropLast := by
    have step1 : ((gaps.erase (listMin gaps)).erase (listMax gaps)).Perm
        (xs.erase (listMax xs)) := hmaxg ▸ (e1.erase (listMax gaps))
    exact step1.trans (erase_listMax_perm_dropLast hxs_sorted hxsne)
  have hd : ((x :: xs).drop 1).dropLast = xs.dropLast := rfl
  rw [hd]
  exact e2.symm

/-- C2: on a history with at least 2 entries and at least one usable gap, the
learner returns exactly what the spec's algorithm prescribes
(`windowLearnerClaim`): bounds `round(min(trimmed)*0.95, 2)` /
`round(max(trimmed)*1.05, 2)` where `trimmed` drops one occurrence of the
smallest and one of the largest usable gap when there are at least 4 usable
gaps and is all usable gaps otherwise, and confidence from the untrimmed
usable-gap count `n` (LOW for n<3, MEDIUM for 3≤n<6, HIGH for n≥6). -/
theorem C2_learner (mob : Mob) (h2 : 2 ≤ mob.tod_history.length)
    (hg : usableGaps mob.tod_history ≠ []) :
    (update_window_from_tod_history mob).2 = windowLearnerClaim mob.tod_history := by
  have hn2 : ¬ mob.tod_history.length < 2 := by omega
  have hperm : ((usableGaps mob.tod_history).insertionSort (· ≤ ·)).Perm
      (usableGaps mob.tod_history) := List.perm_insertionSort _ _
  have hsorted : ((usableGaps mob.tod_history).insertionSort (· ≤ ·)).Sorted (· ≤ ·) :=
    List.sorted_insertionSort _ _
  have hlen : ((usableGaps mob.tod_history).insertionSort (· ≤ ·)).length
      = (usableGaps mob.tod_history).length := hperm.length_eq
  simp only [update_window_from_tod_history, windowLearnerClaim, if_neg hn2, if_neg hg]
  rw [hlen]
  by_cases h4 : 4 ≤ (usableGaps mob.tod_history).length
  · rw [if_pos h4, if_pos h4]
    have hp := trimmed_perm hperm hsorted h4
    rw [listMin_eq_of_perm hp, listMax_eq_of_perm hp]
  · rw [if_neg h4, if_neg h4]
    rw [listMin_eq_of_perm hperm, listMax_eq_of_perm hperm]

/-- Mob whose history [0, 1, 3, 6, 10, 15] yields 5 usable gaps
[1, 2, 3, 4, 5], exercising the trimming branch. -/
def c2Mob : Mob := { newMob "a" with tod_history := [0, 1, 3, 6, 10, 15] }

unseal Rat.sub in
theorem C2_learner_witness :
    2 ≤ c2Mob.tod_history.length
    ∧ usableGaps c2Mob.tod_history ≠ []
    ∧ (update_window_from_tod_history c2Mob).2 = windowLearnerClaim c2Mob.tod_history :=
  ⟨by decide, by decide, C2_learner c2Mob (by decide) (by decide)⟩

/-! ### C7 — name resolver -/

instance : IsTotal (ℚ × String) (fun a b => b.1 ≤ a.1) :=
  ⟨fun a b => le_total b.1 a.1⟩

instance : IsTrans (ℚ × String) (fun a b => b.1 ≤ a.1) :=
  ⟨fun _ _ _ h1 h2 => le_trans h2 h1⟩

lemma get_close_matches_spec (sim : String → String → ℚ) (w : String)
    (ps : List String) (n : Nat) (c : ℚ) :
    (get_close_matches sim w ps n c).length ≤ n
    ∧ (∀ k ∈ get_close_matches sim w ps n c, k ∈ ps ∧ c ≤ sim w k)
    ∧ (get_close_matches sim w ps n c).Sorted (fun k1 k2 => sim w k2 ≤ sim w k1) := by
  have hmemres : ∀ p ∈ (ps.filterMap
      (fun x => if c ≤ sim w x then some (sim w x, x) else none)),
      p.2 ∈ ps ∧ p.1 = sim w p.2 ∧ c ≤ p.1 := by
    intro p hp
    obtain ⟨x, hx, heq⟩ := List.mem_filterMap.mp hp
    by_cases hc : c ≤ sim w x
    · rw [if_pos hc] at heq
      cases heq
      exact ⟨hx, rfl, hc⟩
    · rw [if_neg hc] at heq
      cases heq
  have hmembest : ∀ p ∈ ((ps.filterMap
      (fun x => if c ≤ sim w x then some (sim w x, x) else none)).insertionSort
        (fun a b => b.1 ≤ a.1)).take n,
      p.2 ∈ ps ∧ p.1 = sim w p.2 ∧ c ≤ p.1 := by
    intro p hp
    exact hmemres p ((List.perm_insertionSort _ _).subset (List.mem_of_mem_take hp))
  refine ⟨?_, ?_, ?_⟩
  · simp only [get_close_matches, List.length_map, List.length_take]
    omega
  · intro k hk
    simp only [get_close_matches] at hk
    obtain ⟨p, hp, rfl⟩ := List.mem_map.mp hk
    obtain ⟨h1, h2, h3⟩ := hmembest p hp
    exact ⟨h1, h2 ▸ h3⟩
  · simp only [get_close_matches]
    apply List.pairwise_map.mpr
    have hsorted : ((ps.filterMap
        (fun x => if c ≤ sim w x then some (sim w x, x) else none)).insertionSort
          (fun a b => b.1 ≤ a.1)).Pairwise (fun a b : ℚ × String => b.1 ≤ a.1) :=
      List.sorted_insertionSort _ _
    have htake := List.Pairwise.sublist (List.take_sublist n _) hsorted
    exact htake.imp_of_mem (fun hp hq hle => by
      rw [← (hmembest _ hp).2.1, ← (hmembest _ hq).2.1]
      exact hle)

/-- C7: the resolver normalizes the input (trim + lower-case) and returns it
as an exact key whenever it is already a key (exact beats fuzzy); otherwise
the close-match list has at most 3 candidates, each an existing key with
similarity at least 0.6, ranked by descending similarity, and the result is
NotFound on zero candidates, Exact on the single candidate, and the ordered
Ambiguous list on two or more. -/
theorem C7_name_resolver (sim : String → String → ℚ) (name : String)
    (keys : List String) :
    (pyStrip (pyLower name) ∈ keys →
      fuzzy_find_mob sim name keys = .exact (pyStrip (pyLower name)))
    ∧ (pyStrip (pyLower name) ∉ keys →
        (get_close_matches sim (pyStrip (pyLower name)) keys 3 (mkRat 6 10)).length ≤ 3
        ∧ (∀ k ∈ get_close_matches sim (pyStrip (pyLower name)) keys 3 (mkRat 6 10),
            k ∈ keys ∧ mkRat 6 10 ≤ sim (pyStrip (pyLower name)) k)
        ∧ (get_close_matches sim (pyStrip (pyLower name)) keys 3 (mkRat 6 10)).Sorted
            (fun k1 k2 => sim (pyStrip (pyLower name)) k2 ≤ sim (pyStrip (pyLower name)) k1)
        ∧ (get_close_matches sim (pyStrip (pyLower name)) keys 3 (mkRat 6 10) = [] →
            fuzzy_find_mob sim name keys = .notFound)
        ∧ (∀ k, get_close_matches sim (pyStrip (pyLower name)) keys 3 (mkRat 6 10) = [k] →
            fuzzy_find_mob sim name keys = .exact k)
        ∧ (2 ≤ (get_close_matches sim (pyStrip (pyLower name)) keys 3 (mkRat 6 10)).length →
            fuzzy_find_mob sim name keys =
              .ambiguous (get_close_matches sim (pyStrip (pyLower name)) keys 3 (mkRat 6 10)))) := by
  constructor
  · intro hmem
    simp only [fuzzy_find_mob]
    rw [if_pos hmem]
  · intro hnot
    obtain ⟨hlen, hmem, hsort⟩ := get_close_matches_spec sim (pyStrip (pyLower name)) keys 3 (mkRat 6 10)
    refine ⟨hlen, hmem, hsort, ?_, ?_, ?_⟩
    · intro hnil
      simp only [fuzzy_find_mob]
      rw [if_neg hnot, hnil]
    · intro k hone
      simp only [fuzzy_find_mob]
      rw [if_neg hnot, hone]
    · intro h2
      simp only [fuzzy_find_mob]
      rw [if_neg hnot]
      rcases hc : get_close_matches sim (pyStrip (pyLower name)) keys 3 (mkRat 6 10) with
        _ | ⟨k1, _ | ⟨k2, ks⟩⟩
      · rw [hc] at h2
        simp at h2
      · rw [hc] at h2
        simp at h2
      · rfl

/-- Similarity table standing in for `SequenceMatcher.ratio` in the witness:
the query "abx" is 0.7-similar to "abc" and 0.65-similar to "abd". -/
def c7Sim : String → String → ℚ
  | "abx", "abc" => mkRat 7 10
  | "abx", "abd" => mkRat 65 100
  | _, _ => 0

theorem C7_name_resolver_witness :
    pyStrip (pyLower "abx") ∉ ["abc", "abd"]
    ∧ 2 ≤ (get_close_matches c7Sim (pyStrip (pyLower "abx")) ["abc", "abd"] 3 (mkRat 6 10)).length
    ∧ fuzzy_find_mob c7Sim "abx" ["abc", "abd"] =
        .ambiguous (get_close_matches c7Sim (pyStrip (pyLower "abx")) ["abc", "abd"] 3 (mkRat 6 10))
    ∧ pyStrip (pyLower "abc") ∈ ["abc", "abd"]
    ∧ fuzzy_find_mob c7Sim "abc" ["abc", "abd"] = .exact (pyStrip (pyLower "abc")) :=
  ⟨by decide, by decide,
    ((C7_name_resolver c7Sim "abx" ["abc", "abd"]).2 (by decide)).2.2.2.2.2 (by decide),
    by decide,
    (C7_name_resolver c7Sim "abc" ["abc", "abd"]).1 (by decide)⟩

/-! ### C8 — time parsing -/

/-- C8: a token that (after Python's strip, the identity on the
whitespace-free tokens the command split produces) is not 3-4 decimal digits,
or decodes to an hour outside [0,23] or a minute outside [0,59], makes
`parse_time_str` fail; on a valid token with an explicit date the date and
time are combined directly with no correction, and with no date the
same-day timestamp is returned unless it lies strictly in the future of
`now`, in which case exactly one calendar day is subtracted. -/
theorem C8_parse_time (s : String) (fd : Option ℤ) (now : DateTime)
    (hs : pyStrip s = s) :
    (¬ validTimeToken s → parse_time_str s fd now = .error "Time must be HMM or HHMM")
    ∧ (validTimeToken s → ¬ (tokenHour s ≤ 23 ∧ tokenMinute s ≤ 59) →
        parse_time_str s fd now = .error "Invalid numeric time")
    ∧ (validTimeToken s → tokenHour s ≤ 23 → tokenMinute s ≤ 59 →
        (∀ d : ℤ, parse_time_str s (some d) now =
          .ok ⟨d, 60 * tokenHour s + tokenMinute s⟩)
        ∧ parse_time_str s none now =
            (if now.ltB ⟨now.day, 60 * tokenHour s + tokenMinute s⟩
             then .ok ⟨now.day - 1, 60 * tokenHour s + tokenMinute s⟩
             else .ok ⟨now.day, 60 * tokenHour s + tokenMinute s⟩)) := by
  refine ⟨?_, ?_, ?_⟩
  · intro h
    simp [parse_time_str, hs, h]
  · intro hv hr
    simp [parse_time_str, hs, hv, hr]
  · intro hv hh hm
    constructor
    · intro d
      simp [parse_time_str, hs, hv, hh, hm]
    · simp [parse_time_str, hs, hv, hh, hm]

/-- Current instant used by the C8 witness: day 0 at 01:40. -/
def c8Now : DateTime := ⟨0, 100⟩

instance : DecidableEq (Except String DateTime) :=
  fun a b =>
    match a, b with
    | .ok x, .ok y => decidable_of_iff (x = y) (by simp)
    | .error x, .error y => decidable_of_iff (x = y) (by simp)
    | .ok _, .error _ => isFalse (by simp)
    | .error _, .ok _ => isFalse (by simp)

unseal Rat.add Rat.mul in
theorem C8_parse_time_witness :
    pyStrip "0230" = "0230"
    ∧ validTimeToken "0230"
    ∧ tokenHour "0230" = 2
    ∧ tokenMinute "0230" = 30
    ∧ parse_time_str "0230" (some 5) c8Now =
        .ok ⟨5, 60 * tokenHour "0230" + tokenMinute "0230"⟩
    ∧ parse_time_str "0230" none c8Now =
        (if c8Now.ltB ⟨c8Now.day, 60 * tokenHour "0230" + tokenMinute "0230"⟩
         then .ok ⟨c8Now.day - 1, 60 * tokenHour "0230" + tokenMinute "0230"⟩
         else .ok ⟨c8Now.day, 60 * tokenHour "0230" + tokenMinute "0230"⟩)
    ∧ parse_time_str "0230" none c8Now = .ok ⟨-1, 150⟩
    ∧ parse_time_str "2460" none c8Now = .error "Invalid numeric time"
    ∧ parse_time_str "ab30" none c8Now = .error "Time must be HMM or HHMM" :=
  ⟨by decide, by decide, by decide, by decide,
    ((C8_parse_time "0230" (some 5) c8Now (by decide)).2.2 (by decide) (by decide)
      (by decide)).1 5,
    ((C8_parse_time "0230" none c8Now (by decide)).2.2 (by decide) (by decide)
      (by decide)).2,
    by decide,
    (C8_parse_time "2460" none c8Now (by decide)).2.1 (by decide) (by decide),
    (C8_parse_time "ab30" none c8Now (by decide)).1 (by decide)⟩
